import Mathlib

/-! Formal model of the poster_robber repository: the feather-backed merge
store (`df_store` in `__main__.py`), the paginated transaction fetch
(`API.iter_transactions` in `api.py`), the response envelope dispatch
(`json_response` in `api.py`), the retention computation (`command_ccr`)
and the monthly period stepper (`command_ccr_step_monthly`).

Rows of a keyed pandas frame are modelled as `List (K × V)` pairs of the
index value and the remaining columns; timestamps are modelled as `Int`;
the durable feather file is modelled as `Option (List (K × V))` (`none`
when the file does not exist). -/

namespace PosterRobber

/-! ## Definitions: the incremental store (`df_store`) -/

section StoreDefs

variable {K V : Type} [DecidableEq K]

/-- The index column of a keyed frame (`df.index`). -/
def keysOf (l : List (K × V)) : List K := l.map Prod.fst

/-- Whether the index of `l` contains `k`. -/
def hasKey (l : List (K × V)) (k : K) : Bool :=
  l.any (fun p => decide (p.1 = k))

/-- `df[~df.index.duplicated(keep="last")]`: keep, in original row order,
only the last row carrying each key. -/
def keepLast : List (K × V) → List (K × V)
  | [] => []
  | x :: xs => if hasKey xs x.1 then keepLast xs else x :: keepLast xs

/-- The value of the last row with key `k`, if any: what the keyed frame
maps `k` to under keep-last semantics. -/
def lookupLast : List (K × V) → K → Option V
  | [], _ => none
  | x :: xs, k =>
    match lookupLast xs k with
    | some v => some v
    | none => if x.1 = k then some x.2 else none

/-- The frame has no two rows with the same key. -/
def nodupKeys (l : List (K × V)) : Prop := (keysOf l).Nodup

/-- `df_store` from `__main__.py`: build a keyed frame from the batch if it
is non-empty; if the feather file exists, load it and, when a batch frame
was built, concatenate batch-then-loaded and drop duplicated index entries
keeping the last occurrence; raise when neither side provided data;
persist and return the result. -/
def df_store (store : Option (List (K × V))) (items : List (K × V)) :
    Except String (List (K × V)) :=
  let df : Option (List (K × V)) := if items.isEmpty then none else some items
  match store, df with
  | some loaded, some d => Except.ok (keepLast (d ++ loaded))
  | some loaded, none => Except.ok loaded
  | none, some d => Except.ok d
  | none, none => Except.error "Dataframe is empty"

end StoreDefs

/-! ## Definitions: paginated fetch (`API.iter_transactions`) -/

/-- Pagination metadata echoed by the server (`PageInfo` in `api.py`). -/
structure PageInfo where
  count : Nat
  page : Nat
  per_page : Nat
deriving DecidableEq

/-- A page of records plus its metadata (`Page` in `api.py`). -/
structure Page (α : Type) where
  data : List α
  page : PageInfo

/-- The loop body of `API.iter_transactions`: while the previously echoed
`per_page` equals the previously echoed `count`, fetch the next page,
yield its records, and take the next `page`, `per_page` and `count` from
the response. The extra fuel argument bounds the number of iterations
(the Python generator is an unbounded loop); alongside the yielded
records we also return the trace of `(page, per_page)` requests sent. -/
def iter_transactions_aux {α : Type} (src : Nat → Nat → Page α) :
    Nat → Nat → Nat → Nat → List α × List (Nat × Nat)
  | 0, _, _, _ => ([], [])
  | fuel + 1, from_page, per_page, count =>
    if per_page = count then
      let d := src from_page per_page
      let rest := iter_transactions_aux src fuel (d.page.page + 1) d.page.per_page d.page.count
      (d.data ++ rest.1, (from_page, per_page) :: rest.2)
    else ([], [])

/-- `API.iter_transactions` over an abstract page source: `count` starts
out equal to `per_page`, so the first page is always requested. -/
def iter_transactions {α : Type} (src : Nat → Nat → Page α)
    (from_page per_page fuel : Nat) : List α × List (Nat × Nat) :=
  iter_transactions_aux src fuel from_page per_page per_page

/-- The per-request `per_page` values the loop sends: the first request
uses the caller-supplied `per_page`; every later request uses the
`per_page` echoed by the previous response (the server may clamp it). -/
def echoedPP {α : Type} (src : Nat → Nat → Page α) (s pp : Nat) : Nat → Nat
  | 0 => pp
  | i + 1 => (src (s + i) (echoedPP src s pp i)).page.per_page

/-- A fake CLAMPING source: it echoes `page` verbatim but clamps the
requested `per_page` down to 2; pages 1 and 2 are full (`count` equals the
clamped `per_page`) and page 3 is empty. -/
def demoSrc : Nat → Nat → Page Nat :=
  fun p q =>
    ⟨List.replicate (if p < 3 then min q 2 else 0) p,
      ⟨if p < 3 then min q 2 else 0, p, min q 2⟩⟩

/-- A fake source whose first page reports MORE rows than the echoed
`per_page` (`count = 2 > per_page = 1`); later pages are ordinary. -/
def overfullSrc : Nat → Nat → Page Nat :=
  fun p q => if p = 1 then ⟨[7], ⟨2, 1, 1⟩⟩ else ⟨[8], ⟨0, p, q⟩⟩

/-! ## Definitions: response envelope (`json_response`) -/

/-- A transaction record; timestamps are modelled as integers. -/
structure Transaction where
  client_id : Int
  id : Int
  closed_at : Int
deriving DecidableEq

/-- A client record; timestamps are modelled as integers. -/
structure ClientInfo where
  id : Int
  activated_at : Int
deriving DecidableEq

/-- The quantities `command_ccr` derives and prints: the cohort at period
start, the transactions in the period, the churned clients, the new
clients and the retention rate (`none` when the cohort is empty and the
"no data, skip" message is printed instead). -/
structure CcrStats where
  CS : List ClientInfo
  tx_in_period : List Transaction
  cl_left : List ClientInfo
  CN : List ClientInfo
  crr : Option ℚ

/-- The cohort/retention body of `command_ccr` (lines 69-136 of
`__main__.py`), computed from the full client and transaction frames and
the period bounds. -/
def ccrCompute (df_cl : List ClientInfo) (df_tx : List Transaction)
    (start_period end_period : Int) : CcrStats :=
  let previous_preiod_start := start_period - (end_period - start_period)
  let CS := df_cl.filter (fun c =>
    decide (previous_preiod_start ≤ c.activated_at) && decide (c.activated_at < start_period))
  let tx_in_period := df_tx.filter (fun t =>
    decide (start_period ≤ t.closed_at) && decide (t.closed_at < end_period))
  let clients_with_buy := (tx_in_period.map (fun t => t.client_id)).dedup
  let cl_left := CS.filter (fun c => ! decide (c.id ∈ clients_with_buy))
  let CN := df_cl.filter (fun c =>
    decide (start_period ≤ c.activated_at) && decide (c.activated_at < end_period))
  let crr : Option ℚ :=
    if CS.length = 0 then none
    else some (((CS.length : ℚ) - (cl_left.length : ℚ)) / (CS.length : ℚ))
  ⟨CS, tx_in_period, cl_left, CN, crr⟩

/-- Externally visible effects of `command_ccr`: remote fetches and store
merges (each `df_store` call rewrites the feather file). -/
inductive Effect : Type
  | fetchTx
  | mergeTxStore
  | fetchCl
  | mergeClStore
deriving DecidableEq

/-- Result of a `command_ccr` call. -/
inductive CcrOutcome : Type
  | assertionError
  | done (stats : CcrStats)

/-- `command_ccr` from `__main__.py`: assert `start_period < end_period`
first; only then fetch/merge (when `unload_data`) or reload the stores,
and run the cohort computation. The client and transaction frames the
stores yield are passed as parameters; the effect trace records the
fetches and store writes performed. -/
def command_ccr (unload_data : Bool) (df_cl : List ClientInfo)
    (df_tx : List Transaction) (start_period end_period : Int) :
    CcrOutcome × List Effect :=
  if start_period < end_period then
    (CcrOutcome.done (ccrCompute df_cl df_tx start_period end_period),
      if unload_data then
        [Effect.fetchTx, Effect.mergeTxStore, Effect.fetchCl, Effect.mergeClStore]
      else [Effect.mergeTxStore, Effect.mergeClStore])
  else (CcrOutcome.assertionError, [])

/-! ## Definitions: monthly stepping (`command_ccr_step_monthly`) -/

/-- A calendar date (`datetime.date`). -/
structure Date where
  year : Nat
  month : Nat
  day : Nat
deriving DecidableEq

/-- Lexicographic comparison of dates (Python `date` ordering). -/
def dateLt (a b : Date) : Prop :=
  a.year < b.year ∨ (a.year = b.year ∧
    (a.month < b.month ∨ (a.month = b.month ∧ a.day < b.day)))

instance (a b : Date) : Decidable (dateLt a b) := by
  unfold dateLt
  infer_instance

/-- `calendar.isleap`. -/
def isLeap (y : Nat) : Bool :=
  decide (y % 4 = 0) && (decide (y % 100 ≠ 0) || decide (y % 400 = 0))

/-- `calendar.monthrange(y, m)[1]`: the number of days of month `m` of
year `y`. -/
def daysInMonth (y m : Nat) : Nat :=
  if m = 2 then (if isLeap y then 29 else 28)
  else if m = 4 ∨ m = 6 ∨ m = 9 ∨ m = 11 then 30
  else 31

/-- The day after `d` (with month and year rollover). -/
def nextDay (d : Date) : Date :=
  if d.day < daysInMonth d.year d.month then ⟨d.year, d.month, d.day + 1⟩
  else if d.month < 12 then ⟨d.year, d.month + 1, 1⟩
  else ⟨d.year + 1, 1, 1⟩

/-- `date + datetime.timedelta(days = n)`. -/
def addDays (d : Date) : Nat → Date
  | 0 => d
  | n + 1 => addDays (nextDay d) n

/-- The `while start_period < end_period` loop of
`command_ccr_step_monthly`: emit `[start, start + monthrange days)` and
continue from the emitted end; fuel bounds the number of iterations. -/
def ccrStepLoop (end_period : Date) : Nat → Date → List (Date × Date)
  | 0, _ => []
  | fuel + 1, start_period =>
    if dateLt start_period end_period then
      let current_end :=
        addDays start_period (daysInMonth start_period.year start_period.month)
      (start_period, current_end) :: ccrStepLoop end_period fuel current_end
    else []

/-- `command_ccr_step_monthly` from `__main__.py`: normalize the start to
the first day of its month (`start_period.replace(day=1)`), then walk
whole calendar months; the list of `(start, end)` periods passed to
`command_ccr` is returned. -/
def command_ccr_step_monthly (start_period end_period : Date) (fuel : Nat) :
    List (Date × Date) :=
  ccrStepLoop end_period fuel ⟨start_period.year, start_period.month, 1⟩

/-! ## Store lemmas -/

section StoreLemmas

variable {K V : Type} [DecidableEq K]

theorem hasKey_iff {l : List (K × V)} {k : K} : hasKey l k = true ↔ k ∈ keysOf l := by
  unfold hasKey keysOf
  rw [List.any_eq_true]
  constructor
  · rintro ⟨p, hp, hd⟩
    rw [List.mem_map]
    exact ⟨p, hp, of_decide_eq_true hd⟩
  · intro hm
    rw [List.mem_map] at hm
    obtain ⟨p, hp, he⟩ := hm
    exact ⟨p, hp, decide_eq_true he⟩

theorem lookupLast_ne_none_of_mem {l : List (K × V)} {k : K} (h : k ∈ keysOf l) :
    lookupLast l k ≠ none := by
  induction l with
  | nil => simp [keysOf] at h
  | cons x xs ih =>
    simp only [keysOf, List.map_cons, List.mem_cons] at h
    cases hx : lookupLast xs k with
    | some v => simp [lookupLast, hx]
    | none =>
      have hk : x.1 = k := by
        rcases h with h | h
        · exact h.symm
        · exact absurd hx (ih (by simpa [keysOf] using h))
      simp [lookupLast, hx, hk]

theorem lookupLast_eq_none_of_not_mem {l : List (K × V)} {k : K} (h : k ∉ keysOf l) :
    lookupLast l k = none := by
  induction l with
  | nil => rfl
  | cons x xs ih =>
    simp only [keysOf, List.map_cons, List.mem_cons, not_or] at h
    have h2 : lookupLast xs k = none := ih (by simpa [keysOf] using h.2)
    have hne : ¬ x.1 = k := fun e => h.1 e.symm
    simp [lookupLast, h2, hne]

theorem lookupLast_append (a b : List (K × V)) (k : K) :
    lookupLast (a ++ b) k =
      match lookupLast b k with
      | some v => some v
      | none => lookupLast a k := by
  induction a with
  | nil =>
    simp only [List.nil_append]
    cases h : lookupLast b k <;> simp [lookupLast]
  | cons x xs ih =>
    simp only [List.cons_append, lookupLast, List.append_eq]
    rw [ih]
    cases h : lookupLast b k <;> cases h2 : lookupLast xs k <;> simp

theorem lookupLast_keepLast (l : List (K × V)) (k : K) :
    lookupLast (keepLast l) k = lookupLast l k := by
  induction l with
  | nil => rfl
  | cons x xs ih =>
    by_cases h : hasKey xs x.1 = true
    · simp only [keepLast]
      rw [if_pos h, ih]
      cases hx : lookupLast xs k with
      | some v => simp [lookupLast, hx]
      | none =>
        have hk : ¬ x.1 = k := by
          intro e
          subst e
          exact lookupLast_ne_none_of_mem (hasKey_iff.mp h) hx
        simp [lookupLast, hx, hk]
    · simp only [keepLast]
      rw [if_neg h]
      simp only [lookupLast, ih]

theorem mem_keysOf_keepLast {l : List (K × V)} {k : K} :
    k ∈ keysOf (keepLast l) ↔ k ∈ keysOf l := by
  induction l with
  | nil => simp [keepLast]
  | cons x xs ih =>
    by_cases h : hasKey xs x.1 = true
    · simp only [keepLast]
      rw [if_pos h, ih]
      simp only [keysOf, List.map_cons, List.mem_cons]
      constructor
      · intro hm
        exact Or.inr hm
      · intro hm
        rcases hm with hm | hm
        · have hx := hasKey_iff.mp h
          unfold keysOf at hx
          exact hm ▸ hx
        · exact hm
    · simp only [keepLast]
      rw [if_neg h]
      simp only [keysOf, List.map_cons, List.mem_cons]
      exact or_congr_right (by simpa [keysOf] using ih)

theorem nodupKeys_keepLast (l : List (K × V)) : nodupKeys (keepLast l) := by
  induction l with
  | nil => simp [keepLast, nodupKeys, keysOf]
  | cons x xs ih =>
    by_cases h : hasKey xs x.1 = true
    · simp only [keepLast]
      rw [if_pos h]
      exact ih
    · have hx : x.1 ∉ keysOf (keepLast xs) := by
        rw [mem_keysOf_keepLast]
        intro hc
        exact h (hasKey_iff.mpr hc)
      simp only [keepLast]
      rw [if_neg h]
      unfold nodupKeys keysOf at ih hx ⊢
      rw [List.map_cons, List.nodup_cons]
      exact ⟨hx, ih⟩

theorem keepLast_eq_self_of_nodup (L : List (K × V)) (hL : nodupKeys L) :
    keepLast L = L := by
  induction L with
  | nil => rfl
  | cons x xs ih =>
    unfold nodupKeys keysOf at hL
    rw [List.map_cons, List.nodup_cons] at hL
    have h1 : ¬ hasKey xs x.1 = true := by
      intro hc
      have hm := hasKey_iff.mp hc
      unfold keysOf at hm
      exact hL.1 hm
    simp only [keepLast]
    rw [if_neg h1, ih hL.2]

theorem keepLast_append_eq_right (B L : List (K × V))
    (hsub : ∀ k, k ∈ keysOf B → k ∈ keysOf L) (hL : nodupKeys L) :
    keepLast (B ++ L) = L := by
  induction B with
  | nil => simpa using keepLast_eq_self_of_nodup L hL
  | cons x xs ih =>
    have hx : hasKey (xs ++ L) x.1 = true := by
      rw [hasKey_iff]
      have hmem : x.1 ∈ keysOf L := by
        apply hsub
        simp [keysOf]
      unfold keysOf at hmem ⊢
      rw [List.map_append, List.mem_append]
      exact Or.inr hmem
    rw [List.cons_append]
    simp only [keepLast]
    rw [if_pos hx]
    apply ih
    intro k hk
    apply hsub
    unfold keysOf at hk ⊢
    rw [List.map_cons, List.mem_cons]
    exact Or.inr hk

end StoreLemmas

/-! ## Claim theorems about `df_store` -/

/-- C1 counterexample: with the store holding key 1 ↦ 10 and the batch
bringing key 1 ↦ 20, the merge returns 1 ↦ 10 — the STORED value wins,
not the batch value, refuting the claimed override direction. -/
theorem df_store_batch_override_cex :
    df_store (some [((1 : Int), (10 : Int))]) [(1, 20)] = Except.ok [(1, 10)] ∧
      (10 : Int) ≠ 20 := by
  constructor
  · rfl
  · decide

/-- C1 (amended): merging batch `B` into an existing store `S` succeeds and
maps every key present in `S` to its stored value (the batch value is
discarded on conflict), while a key present only in the batch keeps the
batch's (last) value. -/
theorem df_store_merge_keeps_stored {K V : Type} [DecidableEq K]
    (S B : List (K × V)) :
    ∃ R, df_store (some S) B = Except.ok R ∧
      ∀ k, lookupLast R k =
        if hasKey S k then lookupLast S k else lookupLast B k := by
  by_cases hB : B.isEmpty = true
  · refine ⟨S, ?_, ?_⟩
    · simp [df_store, hB]
    · intro k
      have hBnil : B = [] := List.isEmpty_iff.mp hB
      subst hBnil
      by_cases h : hasKey S k = true
      · rw [if_pos h]
      · rw [if_neg h, lookupLast_eq_none_of_not_mem (fun hc => h (hasKey_iff.mpr hc))]
        rfl
  · have hB' : B.isEmpty = false := by rwa [Bool.not_eq_true] at hB
    refine ⟨keepLast (B ++ S), ?_, ?_⟩
    · simp [df_store, hB']
    · intro k
      rw [lookupLast_keepLast, lookupLast_append]
      by_cases h : hasKey S k = true
      · rw [if_pos h]
        cases hs : lookupLast S k with
        | some v => rfl
        | none => exact absurd hs (lookupLast_ne_none_of_mem (hasKey_iff.mp h))
      · rw [if_neg h, lookupLast_eq_none_of_not_mem (fun hc => h (hasKey_iff.mpr hc))]

/-- C4 counterexample: with no durable data and the batch holding two
records with key 1, the first merge persists both rows, but merging the
same batch again collapses them — the double merge is not the single
merge as a set of (key, value) pairs. -/
theorem df_store_idempotence_cex :
    df_store none [((1 : Int), (10 : Int)), (1, 20)] =
        Except.ok [(1, 10), (1, 20)] ∧
      df_store (some [((1 : Int), (10 : Int)), (1, 20)]) [(1, 10), (1, 20)] =
        Except.ok [(1, 20)] ∧
      ((1 : Int), (10 : Int)) ∈ [((1 : Int), (10 : Int)), (1, 20)] ∧
      ((1 : Int), (10 : Int)) ∉ [((1 : Int), (20 : Int))] := by
  refine ⟨rfl, rfl, ?_, ?_⟩ <;> decide

/-- C4 (amended): merging the same batch twice leaves the store exactly as
merging it once, provided prior durable data exists or the batch has no
two records with the same key. -/
theorem df_store_merge_idempotent {K V : Type} [DecidableEq K]
    (store : Option (List (K × V))) (B R : List (K × V))
    (hside : store.isSome = true ∨ nodupKeys B)
    (h1 : df_store store B = Except.ok R) :
    df_store (some R) B = Except.ok R := by
  by_cases hB : B.isEmpty = true
  · have hBnil : B = [] := List.isEmpty_iff.mp hB
    subst hBnil
    cases store with
    | none => simp [df_store] at h1
    | some S =>
      simp [df_store] at h1
      subst h1
      rfl
  · have hB' : B.isEmpty = false := by rwa [Bool.not_eq_true] at hB
    cases store with
    | none =>
      rcases hside with hs | hnd
      · simp at hs
      · simp [df_store, hB'] at h1
        subst h1
        show df_store (some B) B = Except.ok B
        simp [df_store, hB']
        exact keepLast_append_eq_right B B (fun k hk => hk) hnd
    | some S =>
      simp [df_store, hB'] at h1
      subst h1
      simp [df_store, hB']
      apply keepLast_append_eq_right
      · intro k hk
        rw [mem_keysOf_keepLast]
        unfold keysOf at hk ⊢
        rw [List.map_append, List.mem_append]
        exact Or.inl hk
      · exact nodupKeys_keepLast _

/-- C4 witness: the amended idempotence applied to a concrete store and
batch. -/
theorem df_store_merge_idempotent_witness :
    df_store (some [((1 : Int), (20 : Int)), (2, 5)]) [(1, 20)] =
      Except.ok [(1, 20), (2, 5)] :=
  df_store_merge_idempotent (some [((2 : Int), (5 : Int))]) [(1, 20)]
    [(1, 20), (2, 5)] (Or.inl rfl) rfl

/-- C5 counterexample: when no durable data exists, a batch with two
records carrying the same key is persisted as-is — the returned collection
holds key 1 twice, violating the claimed uniqueness invariant. -/
theorem df_store_duplicate_keys_cex :
    df_store none [((1 : Int), (10 : Int)), (1, 20)] =
        Except.ok [(1, 10), (1, 20)] ∧
      (keysOf [((1 : Int), (10 : Int)), ((1 : Int), (20 : Int))]).count 1 = 2 := by
  refine ⟨rfl, ?_⟩
  decide

/-- C5 (amended): whenever prior durable data exists and the batch is
non-empty, the merged collection has at most one record per key; the
deduplication is skipped only on the fresh-store path. -/
theorem df_store_nodup_keys {K V : Type} [DecidableEq K]
    (S B R : List (K × V)) (hB : B ≠ [])
    (h : df_store (some S) B = Except.ok R) : nodupKeys R := by
  have hB' : B.isEmpty = false := by
    cases B with
    | nil => exact absurd rfl hB
    | cons x xs => rfl
  simp [df_store, hB'] at h
  subst h
  exact nodupKeys_keepLast _

/-- C5 witness: the amended uniqueness applied to a concrete merge. -/
theorem df_store_nodup_keys_witness :
    nodupKeys [((1 : Int), (10 : Int))] :=
  df_store_nodup_keys [] [(1, 10)] [(1, 10)] (by decide) rfl

/-- C6: a merge fails (with the "Dataframe is empty" error) exactly when
the batch is empty and no durable file exists; and with prior data an
empty batch returns the stored collection unchanged. -/
theorem df_store_empty_behavior {K V : Type} [DecidableEq K]
    (store : Option (List (K × V))) (B S : List (K × V)) :
    ((∃ msg, df_store store B = Except.error msg) ↔ B = [] ∧ store = none) ∧
      df_store (some S) ([] : List (K × V)) = Except.ok S := by
  constructor
  · cases store with
    | none =>
      cases B with
      | nil => exact ⟨fun _ => ⟨rfl, rfl⟩, fun _ => ⟨"Dataframe is empty", rfl⟩⟩
      | cons x xs =>
        constructor
        · rintro ⟨msg, hm⟩
          exact absurd hm (by simp [df_store])
        · rintro ⟨h, -⟩
          exact absurd h (by simp)
    | some L =>
      cases B with
      | nil =>
        constructor
        · rintro ⟨msg, hm⟩
          exact absurd hm (by simp [df_store])
        · rintro ⟨-, h⟩
          exact absurd h (by simp)
      | cons x xs =>
        constructor
        · rintro ⟨msg, hm⟩
          exact absurd hm (by simp [df_store])
        · rintro ⟨h, -⟩
          exact absurd h (by simp)
  · rfl

/-! ## Claim theorems about `iter_transactions` -/

theorem iter_transactions_aux_stop {α : Type} (src : Nat → Nat → Page α)
    (fuel fp pp c : Nat) (h : pp ≠ c) :
    iter_transactions_aux src fuel fp pp c = ([], []) := by
  cases fuel with
  | zero => rfl
  | succ f => simp [iter_transactions_aux, h]

theorem echoedPP_shift {α : Type} (src : Nat → Nat → Page α) (s pp : Nat) :
    ∀ i, echoedPP src (s + 1) ((src s pp).page.per_page) i =
      echoedPP src s pp (i + 1) := by
  intro i
  induction i with
  | zero => rfl
  | succ i ih =>
    show (src (s + 1 + i) (echoedPP src (s + 1) ((src s pp).page.per_page) i)).page.per_page =
      (src (s + (i + 1)) (echoedPP src s pp (i + 1))).page.per_page
    rw [ih, show s + 1 + i = s + (i + 1) by omega]

/-- C2 (amended): over a page source that echoes the requested page index,
if — following the loop's own `per_page` chain, where each request after
the first uses the `per_page` ECHOED by the previous response — the first
`n` responses report `count` equal to their own echoed `per_page` and
response `n` reports `count` different from its own echoed `per_page`,
then the fetch yields the records of pages `s, …, s + n` exactly once
each, in page order, and requests exactly those pages with exactly those
(possibly clamped) `per_page` values, stopping on the first mismatch —
which in the server's normal short-page case is `count < per_page`. -/
theorem iter_transactions_yields_until_mismatch {α : Type}
    (src : Nat → Nat → Page α) (s pp n fuel : Nat)
    (hecho : ∀ p q, (src p q).page.page = p)
    (hfuel : n < fuel)
    (hfull : ∀ i, i < n →
      (src (s + i) (echoedPP src s pp i)).page.count =
        (src (s + i) (echoedPP src s pp i)).page.per_page)
    (hlast : (src (s + n) (echoedPP src s pp n)).page.count ≠
      (src (s + n) (echoedPP src s pp n)).page.per_page) :
    iter_transactions src s pp fuel =
      (((List.range (n + 1)).map
          (fun i => (src (s + i) (echoedPP src s pp i)).data)).flatten,
        (List.range (n + 1)).map (fun i => (s + i, echoedPP src s pp i))) := by
  induction n generalizing s pp fuel with
  | zero =>
    obtain ⟨f, rfl⟩ : ∃ f, fuel = f + 1 := ⟨fuel - 1, by omega⟩
    have h0 : (src s pp).page.count ≠ (src s pp).page.per_page := by
      simpa [echoedPP] using hlast
    unfold iter_transactions
    simp only [iter_transactions_aux, eq_self_iff_true, if_true]
    rw [hecho s pp]
    rw [iter_transactions_aux_stop src f (s + 1) ((src s pp).page.per_page)
      ((src s pp).page.count) (Ne.symm h0)]
    simp [List.range_succ, echoedPP]
  | succ n ih =>
    obtain ⟨f, rfl⟩ : ∃ f, fuel = f + 1 := ⟨fuel - 1, by omega⟩
    have h0 : (src s pp).page.count = (src s pp).page.per_page := by
      have h00 := hfull 0 (by omega)
      simpa [echoedPP] using h00
    unfold iter_transactions
    simp only [iter_transactions_aux, eq_self_iff_true, if_true]
    rw [hecho s pp, h0]
    have hrec : iter_transactions_aux src f (s + 1) ((src s pp).page.per_page)
        ((src s pp).page.per_page) =
        iter_transactions src (s + 1) ((src s pp).page.per_page) f := rfl
    rw [hrec]
    rw [ih (s + 1) ((src s pp).page.per_page) f (by omega)
      (fun i hi => by
        rw [echoedPP_shift src s pp i, show s + 1 + i = s + (i + 1) by omega]
        exact hfull (i + 1) (by omega))
      (by
        rw [echoedPP_shift src s pp n, show s + 1 + n = s + (n + 1) by omega]
        exact hlast)]
    rw [show List.range (n + 1 + 1) = 0 :: (List.range (n + 1)).map Nat.succ from
      List.range_succ_eq_map (n + 1)]
    simp only [List.map_cons, List.map_map, List.flatten_cons, Nat.add_zero,
      Function.comp_def]
    rw [show (fun i =>
          (src (s + 1 + i) (echoedPP src (s + 1) ((src s pp).page.per_page) i)).data) =
        (fun i => (src (s + Nat.succ i) (echoedPP src s pp (Nat.succ i))).data) from
      funext (fun i => by
        rw [echoedPP_shift src s pp i, show s + 1 + i = s + Nat.succ i by omega])]
    rw [show (fun i =>
          (s + 1 + i, echoedPP src (s + 1) ((src s pp).page.per_page) i)) =
        (fun i => (s + Nat.succ i, echoedPP src s pp (Nat.succ i))) from
      funext (fun i => by
        rw [echoedPP_shift src s pp i, show s + 1 + i = s + Nat.succ i by omega])]
    rfl

/-- C2 counterexample: the code stops fetching after a page whose `count`
(2) is NOT strictly less than its echoed `per_page` (1) — the loop stops
on any mismatch, not only on a short page, so the claimed "stops exactly
when count < per_page" rule does not hold for every fake source. -/
theorem iter_transactions_stop_not_short_cex :
    iter_transactions overfullSrc 1 1 5 = ([7], [(1, 1)]) ∧
      ¬ (overfullSrc 1 1).page.count < (overfullSrc 1 1).page.per_page := by
  constructor
  · rfl
  · decide

/-- C2 witness: the amended pagination theorem applied to the concrete
clamping source — the caller requests `per_page = 5`, the server clamps to
2 and the loop keeps fetching because each response's `count` equals its
own ECHOED `per_page` (2), not the requested 5; the trace shows the first
request carrying 5 and the later requests the clamped 2. -/
theorem iter_transactions_yields_until_mismatch_witness :
    iter_transactions demoSrc 1 5 9 = ([1, 1, 2, 2], [(1, 5), (2, 2), (3, 2)]) := by
  have h := iter_transactions_yields_until_mismatch demoSrc 1 5 2 9
    (fun p q => rfl) (by omega)
    (fun i hi => by interval_cases i <;> rfl)
    (by decide)
  exact h.trans (by decide)

/-! ## Claim theorem about `json_response` -/

/-- C3: the cohort at period start is exactly the clients activated in
`[start - (end - start), start)`; the transactions in the period are
exactly those closed in `[start, end)`; the churned clients are exactly
the cohort members whose id is not among the client ids of the
transactions in the period; and the new clients are exactly those
activated in `[start, end)`. -/
theorem command_ccr_cohort_classification (df_cl : List ClientInfo)
    (df_tx : List Transaction) (sp ep : Int) (c : ClientInfo) (t : Transaction) :
    (c ∈ (ccrCompute df_cl df_tx sp ep).CS ↔
      c ∈ df_cl ∧ sp - (ep - sp) ≤ c.activated_at ∧ c.activated_at < sp) ∧
    (t ∈ (ccrCompute df_cl df_tx sp ep).tx_in_period ↔
      t ∈ df_tx ∧ sp ≤ t.closed_at ∧ t.closed_at < ep) ∧
    (c ∈ (ccrCompute df_cl df_tx sp ep).cl_left ↔
      c ∈ (ccrCompute df_cl df_tx sp ep).CS ∧
        c.id ∉ (ccrCompute df_cl df_tx sp ep).tx_in_period.map Transaction.client_id) ∧
    (c ∈ (ccrCompute df_cl df_tx sp ep).CN ↔
      c ∈ df_cl ∧ sp ≤ c.activated_at ∧ c.activated_at < ep) := by
  refine ⟨?_, ?_, ?_, ?_⟩
  · simp [ccrCompute, List.mem_filter, and_assoc]
  · simp [ccrCompute, List.mem_filter, and_assoc]
  · simp [ccrCompute, List.mem_filter, List.mem_dedup, and_assoc]
    tauto
  · simp [ccrCompute, List.mem_filter, and_assoc]

/-- C7: the reported retention rate is exactly
`(|CS| - |cl_left|) / |CS|` when the cohort at period start is non-empty,
and the "no data, skip" outcome (`none`) is reported when it is empty,
without performing the division. -/
theorem command_ccr_crr_formula (df_cl : List ClientInfo) (df_tx : List Transaction)
    (sp ep : Int) (S : CcrStats) (hS : S = ccrCompute df_cl df_tx sp ep) :
    (S.CS = [] → S.crr = none) ∧
    (S.CS ≠ [] →
      S.crr = some (((S.CS.length : ℚ) - (S.cl_left.length : ℚ)) /
        (S.CS.length : ℚ))) := by
  subst hS
  have hcrr : (ccrCompute df_cl df_tx sp ep).crr =
      (if (ccrCompute df_cl df_tx sp ep).CS.length = 0 then none
       else some ((((ccrCompute df_cl df_tx sp ep).CS.length : ℚ) -
         ((ccrCompute df_cl df_tx sp ep).cl_left.length : ℚ)) /
         ((ccrCompute df_cl df_tx sp ep).CS.length : ℚ))) := rfl
  constructor
  · intro h
    rw [hcrr, if_pos (by rw [h]; rfl)]
  · intro h
    rw [hcrr, if_neg (fun hc => h (List.length_eq_zero.mp hc))]

/-- C7 witness: the retention formula applied to a concrete one-client
cohort. -/
theorem command_ccr_crr_formula_witness :
    (ccrCompute [⟨1, 5⟩] [] 10 20).crr =
      some ((((ccrCompute [⟨1, 5⟩] [] 10 20).CS.length : ℚ) -
        ((ccrCompute [⟨1, 5⟩] [] 10 20).cl_left.length : ℚ)) /
        ((ccrCompute [⟨1, 5⟩] [] 10 20).CS.length : ℚ)) :=
  (command_ccr_crr_formula [⟨1, 5⟩] [] 10 20 _ rfl).2 (by decide)

/-- C9: a period with `start_period ≥ end_period` fails the leading
assert, so the call returns the assertion error with an empty effect
trace — no fetch, no store write, no retention computation. -/
theorem command_ccr_rejects_invalid_period (unload_data : Bool)
    (df_cl : List ClientInfo) (df_tx : List Transaction) (sp ep : Int)
    (h : ep ≤ sp) :
    command_ccr unload_data df_cl df_tx sp ep =
      (CcrOutcome.assertionError, ([] : List Effect)) := by
  unfold command_ccr
  rw [if_neg (by omega)]

/-- C9 witness: the invalid-period rejection at a concrete period. -/
theorem command_ccr_rejects_invalid_period_witness :
    command_ccr true [] [] 5 3 = (CcrOutcome.assertionError, ([] : List Effect)) :=
  command_ccr_rejects_invalid_period true [] [] 5 3 (by decide)

/-! ## Claim theorem about `command_ccr_step_monthly` -/

theorem nextDay_mk (y m d : Nat) :
    nextDay ⟨y, m, d⟩ =
      if d < daysInMonth y m then (⟨y, m, d + 1⟩ : Date)
      else if m < 12 then ⟨y, m + 1, 1⟩ else ⟨y + 1, 1, 1⟩ := rfl

theorem addDays_run : ∀ (k y m d : Nat), 1 ≤ d → d + k = daysInMonth y m →
    addDays ⟨y, m, d⟩ (k + 1) =
      (if m < 12 then Date.mk y (m + 1) 1 else Date.mk (y + 1) 1 1) := by
  intro k
  induction k with
  | zero =>
    intro y m d h1 h2
    have ha : addDays (⟨y, m, d⟩ : Date) 1 = nextDay ⟨y, m, d⟩ := rfl
    rw [ha, nextDay_mk, if_neg (by omega)]
  | succ k ih =>
    intro y m d h1 h2
    have ha : addDays (⟨y, m, d⟩ : Date) (k + 1 + 1) =
        addDays (nextDay ⟨y, m, d⟩) (k + 1) := rfl
    rw [ha, nextDay_mk, if_pos (by omega)]
    exact ih y m (d + 1) (by omega) (by omega)

/-- Adding `monthrange` days to the first of a month lands on the first of
the next month (with year rollover after December). -/
theorem addDays_daysInMonth (y m : Nat) :
    addDays ⟨y, m, 1⟩ (daysInMonth y m) =
      (if m < 12 then Date.mk y (m + 1) 1 else Date.mk (y + 1) 1 1) := by
  have h1 : 1 ≤ daysInMonth y m := by
    unfold daysInMonth
    split
    · split <;> omega
    · split <;> omega
  rw [show daysInMonth y m = (daysInMonth y m - 1) + 1 by omega]
  exact addDays_run (daysInMonth y m - 1) y m 1 (le_refl 1) (by omega)

theorem ccrStepLoop_head (ep : Date) (fuel : Nat) (s : Date) (p : Date × Date)
    (h : (ccrStepLoop ep fuel s).head? = some p) : p.1 = s := by
  cases fuel with
  | zero => exact absurd h (by simp [ccrStepLoop])
  | succ f =>
    by_cases hlt : dateLt s ep
    · simp only [ccrStepLoop, hlt, if_true, List.head?_cons] at h
      have hps := Option.some.inj h
      rw [← hps]
    · simp only [ccrStepLoop, hlt, if_false] at h
      exact absurd h (by simp)

theorem ccrStepLoop_chain (ep : Date) :
    ∀ (fuel : Nat) (s : Date),
      List.Chain' (fun p q => q.1 = p.2) (ccrStepLoop ep fuel s) := by
  intro fuel
  induction fuel with
  | zero =>
    intro s
    simp [ccrStepLoop]
  | succ f ih =>
    intro s
    by_cases hlt : dateLt s ep
    · simp only [ccrStepLoop, hlt, if_true]
      rw [List.chain'_cons']
      refine ⟨?_, ih _⟩
      intro q hq
      exact ccrStepLoop_head ep f _ q (Option.mem_def.mp hq)
    · simp only [ccrStepLoop, hlt, if_false]
      simp

theorem ccrStepLoop_mem (ep : Date) :
    ∀ (fuel : Nat) (s : Date), s.day = 1 →
      ∀ p ∈ ccrStepLoop ep fuel s,
        p.1.day = 1 ∧ dateLt p.1 ep ∧
        p.2 = addDays p.1 (daysInMonth p.1.year p.1.month) ∧
        p.2 = (if p.1.month < 12 then Date.mk p.1.year (p.1.month + 1) 1
               else Date.mk (p.1.year + 1) 1 1) := by
  intro fuel
  induction fuel with
  | zero =>
    intro s hday p hp
    simp [ccrStepLoop] at hp
  | succ f ih =>
    intro s hday p hp
    by_cases hlt : dateLt s ep
    · simp only [ccrStepLoop, hlt, if_true] at hp
      rcases List.mem_cons.mp hp with hp | hp
      · subst hp
        obtain ⟨y, m, d⟩ := s
        simp only [] at hday
        subst hday
        exact ⟨rfl, hlt, rfl, addDays_daysInMonth y m⟩
      · refine ih _ ?_ p hp
        obtain ⟨y, m, d⟩ := s
        simp only [] at hday
        subst hday
        rw [addDays_daysInMonth y m]
        by_cases hm : m < 12
        · rw [if_pos hm]
        · rw [if_neg hm]
    · simp only [ccrStepLoop, hlt, if_false] at hp
      simp at hp

set_option maxRecDepth 4000 in
/-- C8: every period the monthly stepper emits starts on the first day of
a month, starts before the supplied end date, and ends exactly one true
calendar month later (the first of the next month) — with no clipping of
the final period; the emitted periods chain (each start is the previous
end); and on `start = 2024-01-15`, `end = 2024-03-01` the stepper yields
exactly `[(2024-01-01, 2024-02-01), (2024-02-01, 2024-03-01)]`. -/
theorem command_ccr_step_monthly_spec (sp ep : Date) (fuel : Nat) :
    (∀ p ∈ command_ccr_step_monthly sp ep fuel,
      p.1.day = 1 ∧ dateLt p.1 ep ∧
      p.2 = addDays p.1 (daysInMonth p.1.year p.1.month) ∧
      p.2 = (if p.1.month < 12 then Date.mk p.1.year (p.1.month + 1) 1
             else Date.mk (p.1.year + 1) 1 1)) ∧
    List.Chain' (fun p q => q.1 = p.2) (command_ccr_step_monthly sp ep fuel) ∧
    command_ccr_step_monthly ⟨2024, 1, 15⟩ ⟨2024, 3, 1⟩ 24 =
      [(⟨2024, 1, 1⟩, ⟨2024, 2, 1⟩), (⟨2024, 2, 1⟩, ⟨2024, 3, 1⟩)] := by
  refine ⟨?_, ?_, ?_⟩
  · intro p hp
    exact ccrStepLoop_mem ep fuel ⟨sp.year, sp.month, 1⟩ rfl p hp
  · exact ccrStepLoop_chain ep fuel _
  · decide

set_option maxRecDepth 4000 in
/-- C8 witness: the per-period properties instantiated at the first period
the stepper emits for `start = 2024-01-15`, `end = 2024-03-01`. -/
theorem command_ccr_step_monthly_spec_witness :
    (Date.mk 2024 1 1).day = 1 ∧ dateLt ⟨2024, 1, 1⟩ ⟨2024, 3, 1⟩ ∧
      Date.mk 2024 2 1 = addDays ⟨2024, 1, 1⟩ (daysInMonth 2024 1) ∧
      Date.mk 2024 2 1 =
        (if (Date.mk 2024 1 1).month < 12 then Date.mk 2024 (1 + 1) 1
         else Date.mk (2024 + 1) 1 1) :=
  (command_ccr_step_monthly_spec ⟨2024, 1, 15⟩ ⟨2024, 3, 1⟩ 24).1
    (⟨2024, 1, 1⟩, ⟨2024, 2, 1⟩) (by decide)

end PosterRobber
